import Mathlib

/-!
Verification of the text entity extraction and reconciliation engine of
`src/smart-scraper.js` (BookMyShow smart scraper).

The engine is shallowly embedded over `List Char`.  JavaScript strings become
`List Char`; the single global regular expression carrying the `g` flag
(`THEATRE_PATTERNS.TIME_REGEX`) owns a mutable `lastIndex`, which is modelled
by threading an explicit `Nat` state through every function that calls
`.test` on it (`String.prototype.match` with a global regex always leaves
`lastIndex` at `0`, which is modelled where it matters).
-/

namespace SmartScraper

/-- Shorthand turning a string literal into the character-list representation. -/
def sl (s : String) : List Char := s.toList

/-- JavaScript `toLowerCase` restricted to the ASCII range used by the scraper. -/
def lowerL (s : List Char) : List Char := s.map Char.toLower

/-- Predicate scan over every suffix of a list (regex scanning of all start
positions, including the empty suffix at the end of the string). -/
def anySuffix (p : List Char → Bool) : List Char → Bool
  | [] => p []
  | c :: t => p (c :: t) || anySuffix p t

/-- JavaScript `hay.includes(needle)` (case sensitive). -/
def incl (hay needle : List Char) : Bool :=
  anySuffix (fun s => needle.isPrefixOf s) hay

/-- Consume `pat` (which is stored lower case) case-insensitively from the
front of `s`; return the rest on success. -/
def ciConsume : List Char → List Char → Option (List Char)
  | [], s => some s
  | _ :: _, [] => none
  | p :: pt, c :: ct => if c.toLower = p then ciConsume pt ct else none

/-- Case-insensitive prefix test against a lower-case pattern. -/
def ciPref (pat s : List Char) : Bool := (ciConsume pat s).isSome

/-- Maximal whitespace prefix (regex `\s*`). -/
def takeWs : List Char → (List Char × List Char)
  | [] => ([], [])
  | c :: t =>
    if c.isWhitespace then
      let r := takeWs t
      (c :: r.1, r.2)
    else ([], c :: t)

/-- Maximal digit prefix (regex `\d+` under maximal munch, exact here because
no following token of any pattern in the scraper can consume a digit). -/
def takeDigits : List Char → (List Char × List Char)
  | [] => ([], [])
  | c :: t =>
    if c.isDigit then
      let r := takeDigits t
      (c :: r.1, r.2)
    else ([], c :: t)

/-- Regex `\s+`: at least one whitespace character, consumed maximally. -/
def wsPlus : List Char → Option (List Char)
  | [] => none
  | c :: t => if c.isWhitespace then some (takeWs t).2 else none

/-- Strip leading whitespace. -/
def trimL : List Char → List Char
  | [] => []
  | c :: t => if c.isWhitespace then trimL t else c :: t

/-- JavaScript `String.prototype.trim`. -/
def trimBoth (s : List Char) : List Char := ((trimL s).reverse |> trimL).reverse

/-- Split on newline characters (JavaScript `split("\n")`). -/
def splitLines : List Char → List (List Char)
  | [] => [[]]
  | c :: t =>
    let r := splitLines t
    if c = '\n' then [] :: r
    else
      match r with
      | [] => [[c]]
      | h :: t2 => (c :: h) :: t2

/-- Collapse whitespace runs to single spaces (regex replace `\s+` by a space);
the flag records whether the previous character was whitespace. -/
def collapseWsAux : Bool → List Char → List Char
  | _, [] => []
  | prevWs, c :: t =>
    if c.isWhitespace then
      if prevWs then collapseWsAux true t else ' ' :: collapseWsAux true t
    else c :: collapseWsAux false t

/-- First-occurrence deduplication, the model of `[...new Set(xs)]`. -/
def dedupAux {α : Type} [DecidableEq α] (seen : List α) : List α → List α
  | [] => []
  | x :: t => if x ∈ seen then dedupAux seen t else x :: dedupAux (x :: seen) t

/-- `[...new Set(xs)]`: keep the first occurrence of each element. -/
def dedup {α : Type} [DecidableEq α] (l : List α) : List α := dedupAux [] l

/-- JavaScript `hay.indexOf(needle)` (as an `Option`). -/
def idxOf : List Char → List Char → Option Nat
  | s, n =>
    if n.isPrefixOf s then some 0
    else
      match s with
      | [] => none
      | _ :: t => (idxOf t n).map (fun k => k + 1)

/-- Prefix of `line` before the first occurrence of delimiter `d`, together
with the rest after the delimiter (`none` when `d` does not occur). -/
def splitAtFirst (d : Char) : List Char → Option (List Char × List Char)
  | [] => none
  | c :: t =>
    if c = d then some ([], t)
    else (splitAtFirst d t).map (fun p => (c :: p.1, p.2))

/-- The am/pm marker of `TIME_REGEX` (`(am|pm|AM|PM)` under the `i` flag). -/
def matchAmPm : List Char → Option (List Char × List Char)
  | a :: b :: rest =>
    if (a.toLower = 'a' || a.toLower = 'p') && b.toLower = 'm' then
      some ([a, b], rest)
    else none
  | _ => none

/-- Tail `:\d{2}\s*(am|pm)` of `TIME_REGEX` after the leading digits. -/
def matchTimeTail : List Char → Option (List Char × List Char)
  | ':' :: d1 :: d2 :: rest =>
    if d1.isDigit && d2.isDigit then
      let w := takeWs rest
      match matchAmPm w.2 with
      | some (ap, r2) => some (':' :: d1 :: d2 :: (w.1 ++ ap), r2)
      | none => none
    else none
  | _ => none

/-- `TIME_REGEX = /\d{1,2}:\d{2}\s*(am|pm|AM|PM)/gi` matched at the current
position, with the greedy-then-backtrack semantics of `\d{1,2}`. -/
def matchTimeHere : List Char → Option (List Char × List Char)
  | [] => none
  | d1 :: rest =>
    if d1.isDigit then
      match rest with
      | [] => none
      | d2 :: rest2 =>
        if d2.isDigit then
          match matchTimeTail rest2 with
          | some (m, r) => some (d1 :: d2 :: m, r)
          | none =>
            match matchTimeTail rest with
            | some (m, r) => some (d1 :: m, r)
            | none => none
        else
          match matchTimeTail rest with
          | some (m, r) => some (d1 :: m, r)
          | none => none
    else none

/-- Leftmost `TIME_REGEX` match in `s`, where the head of `s` sits at absolute
position `pos`; returns the matched text with its start and end positions. -/
def timeSearch : List Char → Nat → Option (List Char × Nat × Nat)
  | [], _ => none
  | c :: t, pos =>
    match matchTimeHere (c :: t) with
    | some (m, _) => some (m, pos, pos + m.length)
    | none => timeSearch t (pos + 1)

/-- `TIME_REGEX.test(line)` with the regex's mutable `lastIndex` (the `g`
flag): search starts at `lastIndex`; success stores the match end there,
failure resets it to `0`. -/
def timeTest (line : List Char) (li : Nat) : Bool × Nat :=
  if line.length < li then (false, 0)
  else
    match timeSearch (line.drop li) li with
    | some (_, _, e) => (true, e)
    | none => (false, 0)

/-- Fuel-driven worker for `timeMatchAll`; fuel `s.length` suffices because
every step consumes at least one character. -/
def timeMatchAllFuel : Nat → List Char → List (List Char)
  | 0, _ => []
  | _ + 1, [] => []
  | n + 1, c :: t =>
    match matchTimeHere (c :: t) with
    | some (m, r) => m :: timeMatchAllFuel n r
    | none => timeMatchAllFuel n t

/-- `line.match(TIME_REGEX)` for the global regex: all non-overlapping
matches from position `0` (the call always leaves `lastIndex` at `0`, which
callers of this model account for). -/
def timeMatchAll (s : List Char) : List (List Char) := timeMatchAllFuel s.length s

/-- `THEATRE_PATTERNS.KEYWORDS` from the source, in order. -/
def KEYWORDS : List (List Char) :=
  [sl ("cinema"), sl ("multiplex"), sl ("mall"), sl ("theatre"), sl ("pvr"),
   sl ("inox"), sl ("miraj"), sl ("asian"), sl ("aparna"), sl ("amb"),
   sl ("gpr"), sl ("cinemax"), sl ("cinepolis"), sl ("carnival"),
   sl ("vyjayanthi"), sl ("uk cineplex"), sl ("uk"), sl ("cineplex"),
   sl ("sandhya"), sl ("sudarshan"), sl ("talluri"), sl ("nacharam"),
   sl ("kushaiguda"), sl ("rtc x roads"), sl ("35mm"), sl ("dolby atmos"),
   sl ("laser"), sl ("amr"), sl ("planet mall"), sl ("moula ali"),
   sl ("ecil"), sl ("secunderabad")]

/-- `THEATRE_PATTERNS.LOCATIONS` from the source. -/
def LOCATIONS : List (List Char) :=
  [sl ("hyderabad"), sl ("nacharam"), sl ("kushaiguda"), sl ("secunderabad"),
   sl ("moula ali"), sl ("ecil")]

/-- `KEYWORDS.some(k => line.toLowerCase().includes(k))`. -/
def hasKeyword (line : List Char) : Bool :=
  KEYWORDS.any (fun k => incl (lowerL line) k)

/-- Tail `\s*(dolby|atmos|laser)` of the format pattern. -/
def dolbyTail (r : List Char) : Bool :=
  let r2 := (takeWs r).2
  ciPref (sl ("dolby")) r2 || ciPref (sl ("atmos")) r2 || ciPref (sl ("laser")) r2

/-- `/\d+(mm|k)\s*(dolby|atmos|laser)/i` matched at the current position. -/
def fmtDolbyHere (s : List Char) : Bool :=
  let d := takeDigits s
  decide (d.1 ≠ []) &&
    ((match ciConsume (sl ("mm")) d.2 with
      | some r2 => dolbyTail r2
      | none => false) ||
     (match ciConsume (sl ("k")) d.2 with
      | some r2 => dolbyTail r2
      | none => false))

/-- `/\d+(mm|k)\s*(dolby|atmos|laser)/i.test(line)`. -/
def fmtDolby (line : List Char) : Bool := anySuffix fmtDolbyHere line

/-- `/(cinema|theatre|theatres)\s*:/i` matched at the current position. -/
def cinemaColonHere (s : List Char) : Bool :=
  [sl ("cinema"), sl ("theatre"), sl ("theatres")].any (fun a =>
    match ciConsume a s with
    | some r =>
      (match (takeWs r).2 with
       | ':' :: _ => true
       | _ => false)
    | none => false)

/-- `/(cinema|theatre|theatres)\s*:/i.test(line)`. -/
def cinemaColon (line : List Char) : Bool := anySuffix cinemaColonHere line

/-- `/:\s*(hyderabad|nacharam|kushaiguda|rtc)/i` matched at the current position. -/
def colonLocHere : List Char → Bool
  | ':' :: r =>
    let r2 := (takeWs r).2
    ciPref (sl ("hyderabad")) r2 || ciPref (sl ("nacharam")) r2 ||
      ciPref (sl ("kushaiguda")) r2 || ciPref (sl ("rtc")) r2
  | _ => false

/-- `/:\s*(hyderabad|nacharam|kushaiguda|rtc)/i.test(line)`. -/
def colonLoc (line : List Char) : Bool := anySuffix colonLocHere line

/-- `/\d+(mm|k)/i` matched at the current position. -/
def mmKHere (s : List Char) : Bool :=
  let d := takeDigits s
  decide (d.1 ≠ []) && (ciPref (sl ("mm")) d.2 || ciPref (sl ("k")) d.2)

/-- `/\d+(mm|k)/i.test(line)`. -/
def mmK (line : List Char) : Bool := anySuffix mmKHere line

/-- `/movies?\s+in\s+/i` matched at the current position (`s?` tries both
branches). -/
def exMoviesInHere (s : List Char) : Bool :=
  match ciConsume (sl ("movie")) s with
  | none => false
  | some r =>
    let tail := fun (r2 : List Char) =>
      match wsPlus r2 with
      | some r3 =>
        (match ciConsume (sl ("in")) r3 with
         | some r4 => (wsPlus r4).isSome
         | none => false)
      | none => false
    (match ciConsume (sl ("s")) r with
     | some r2 => tail r2
     | none => false) || tail r

/-- `/a\s+b/i` matched at the current position. -/
def pairWsHere (a b : List Char) (s : List Char) : Bool :=
  match ciConsume a s with
  | some r =>
    (match wsPlus r with
     | some r2 => ciPref b r2
     | none => false)
  | none => false

/-- `/a\s+b\s+c/i` matched at the current position. -/
def tripleWsHere (a b c : List Char) (s : List Char) : Bool :=
  match ciConsume a s with
  | some r =>
    (match wsPlus r with
     | some r2 =>
       (match ciConsume b r2 with
        | some r3 =>
          (match wsPlus r3 with
           | some r4 => ciPref c r4
           | none => false)
        | none => false)
     | none => false)
  | none => false

/-- `/part\s+\d+/i` matched at the current position. -/
def exPartHere (s : List Char) : Bool :=
  match ciConsume (sl ("part")) s with
  | some r =>
    (match wsPlus r with
     | some r2 => decide ((takeDigits r2).1 ≠ [])
     | none => false)
  | none => false

/-- `/^\d+d$/i.test(line)`. -/
def exDigitsD (line : List Char) : Bool :=
  let d := takeDigits line
  decide (d.1 ≠ []) &&
    (match d.2 with
     | [c] => c.toLower = 'd'
     | _ => false)

/-- `gold\s+cinema$` matched at the current position (anchored at the end). -/
def goldCinemaEndHere (s : List Char) : Bool :=
  match ciConsume (sl ("gold")) s with
  | some r =>
    (match wsPlus r with
     | some r2 => ciConsume (sl ("cinema")) r2 = some []
     | none => false)
  | none => false

/-- Case-insensitive whole-line equality against a lower-case word. -/
def eqCI (line : List Char) (w : List Char) : Bool := lowerL line = w

/-- `^a\s+b$` (case-insensitive) against the whole line. -/
def exactPairWs (line a b : List Char) : Bool :=
  match ciConsume a line with
  | some r =>
    (match wsPlus r with
     | some r2 => ciConsume b r2 = some []
     | none => false)
  | none => false

/-- `THEATRE_PATTERNS.EXCLUDE_PATTERNS.some(p => p.test(line))`: the ten
exclusion regexes of the source, in order. -/
def excludeAny (line : List Char) : Bool :=
  anySuffix exMoviesInHere line ||
  anySuffix (pairWsHere (sl ("dolby")) (sl ("cinema"))) line ||
  anySuffix (pairWsHere (sl ("top")) (sl ("cinema"))) line ||
  anySuffix (pairWsHere (sl ("cinema")) (sl ("chain"))) line ||
  anySuffix exPartHere line ||
  anySuffix (tripleWsHere (sl ("sword")) (sl ("vs")) (sl ("spirit"))) line ||
  anySuffix (tripleWsHere (sl ("hari")) (sl ("hara")) (sl ("veera"))) line ||
  exDigitsD line ||
  (anySuffix (fun s => ciPref (sl ("connplex")) s) line ||
   anySuffix goldCinemaEndHere line) ||
  (eqCI line (sl ("pvr")) || eqCI line (sl ("inox")) ||
   eqCI line (sl ("cinepolis")) ||
   exactPairWs line (sl ("miraj")) (sl ("cinemas")) ||
   exactPairWs line (sl ("asian")) (sl ("cinemas")))

/-- `line.match(/^\d+$/)` is non-null: the line is non-empty and all digits. -/
def allDigits (line : List Char) : Bool :=
  decide (line ≠ []) && line.all Char.isDigit

/-- First inclusion group of `isTheatreLine`: curated keyword, screen-format
pattern, `(cinema|theatre|theatres):` pattern, or `: locality` pattern. -/
def inclGroup1 (line : List Char) : Bool :=
  hasKeyword line || fmtDolby line || cinemaColon line || colonLoc line

/-- The negative conditions of `isTheatreLine`: length bounds, no `http`, no
`Select`, not all digits, no exclusion pattern. -/
def negativesOk (line : List Char) : Bool :=
  decide (5 < line.length) && decide (line.length < 200) &&
  !(incl line (sl ("http"))) && !(incl line (sl ("Select"))) &&
  !(allDigits line) && !(excludeAny line)

/-- The stateless disjuncts of the separator group of `isTheatreLine`:
colon, comma, dash separator, locality, or `\d+(mm|k)`. -/
def sepPure (line : List Char) : Bool :=
  incl line [':'] || incl line [','] || incl line (sl (" - ")) ||
  LOCATIONS.any (fun l => incl (lowerL line) l) || mmK line

/-- `isTheatreLine` from `src/smart-scraper.js` (lines 188-211), with the
`TIME_REGEX.lastIndex` state threaded through the final (stateful)
`TIME_REGEX.test(line)` disjunct, which only runs when every stateless
disjunct of the separator group is false. -/
def isTheatreLine (line : List Char) (li : Nat) : Bool × Nat :=
  if inclGroup1 line && negativesOk line then
    if sepPure line then (true, li) else timeTest line li
  else (false, li)

/-- Concatenate a list of lists (the flattening used for collected matches). -/
def concatAll {α : Type} : List (List α) → List α
  | [] => []
  | x :: t => x ++ concatAll t

/-- Enumerate a list with indices starting at `i`. -/
def enumFromL {α : Type} (i : Nat) : List α → List (Nat × α)
  | [] => []
  | x :: t => (i, x) :: enumFromL (i + 1) t

/-- Enumerate a list with indices starting at `0` (JavaScript `forEach`). -/
def enumL {α : Type} (l : List α) : List (Nat × α) := enumFromL 0 l

/-- `extractShowtimes(lines, centerIndex, range)` from the source (lines
216-254): a window `[center-5, center+range)`, an inline pass on the center
line, and a short forward pass that skips long, `http` or `Select` lines;
all matches deduplicated in first-occurrence order. -/
def extractShowtimes (lines : List (List Char)) (c : Nat) (range : Nat) :
    List (List Char) :=
  let n := lines.length
  let w1 := concatAll (((List.range n).filter
      (fun i => decide (c - 5 ≤ i) && decide (i < min (c + range) n))).map
      (fun i => timeMatchAll (lines.getD i [])))
  let w2 := if c < n then timeMatchAll (lines.getD c []) else []
  let w3 := concatAll (((List.range n).filter
      (fun i => decide (c + 1 ≤ i) && decide (i < min (c + 8) n))).map
      (fun i =>
        let l := lines.getD i []
        if decide (50 < l.length) || incl l (sl ("http")) || incl l (sl ("Select"))
        then [] else timeMatchAll l))
  dedup (w1 ++ w2 ++ w3)

/-- The acceptance test a context line must pass in `improveTheatreName`. -/
def ctxOk (orig ctx : List Char) : Bool :=
  decide (orig.length < ctx.length) && decide (ctx.length < 100) &&
  (incl (lowerL ctx) (lowerL orig) || incl (lowerL orig) (lowerL ctx)) &&
  !(allDigits ctx) && !(incl ctx (sl ("http"))) &&
  (incl ctx [':'] || incl ctx [','])

/-- `improveTheatreName(lines, lineIndex, originalName)` from the source
(lines 259-278): scan the window `[lineIndex-2, lineIndex+3)` and return the
first trimmed context line accepted by `ctxOk`, else the original name. -/
def improveTheatreName (lines : List (List Char)) (li : Nat) (orig : List Char) :
    List Char :=
  let idxs := (List.range lines.length).filter
      (fun i => decide (li - 2 ≤ i) && decide (i < min (li + 3) lines.length))
  match idxs.find? (fun i => ctxOk orig (trimBoth (lines.getD i []))) with
  | some i => trimBoth (lines.getD i [])
  | none => orig

/-- The key normalisation of the source: lower-case, delete characters that
are neither word characters nor whitespace, collapse whitespace, trim. -/
def normalizeKey (s : List Char) : List Char :=
  trimBoth (collapseWsAux false
    ((lowerL s).filter (fun c => c.isAlphanum || c = '_' || c.isWhitespace)))

/-- A theatre record: the value type stored in the reconciliation `Map`. -/
structure TRec where
  theatre : List Char
  showtimes : List (List Char)
deriving DecidableEq

/-- The reconciliation `Map`, modelled as an insertion-ordered association list. -/
abbrev TMap : Type := List (List Char × TRec)

/-- `Map.get`-style lookup on the association list. -/
def lookupKey : TMap → List Char → Option TRec
  | [], _ => none
  | e :: t, key => if e.1 = key then some e.2 else lookupKey t key

/-- `Map.has`. -/
def hasKey (m : TMap) (k : List Char) : Bool := (lookupKey m k).isSome

/-- Replace the value stored at a key, keeping its position (JavaScript
`Map.set` on an existing key). -/
def updateKey : TMap → List Char → TRec → TMap
  | [], _, _ => []
  | e :: t, key, r2 => if e.1 = key then (e.1, r2) :: t else e :: updateKey t key r2

/-- The duplicate-handling insert of the second pass of
`extractTheatresAndShowtimes` (source lines 369-385): a fresh key is
appended with the deduplicated time list; an existing key has its time sets
unioned and its name replaced exactly when the new name is strictly longer. -/
def insertTheatre (m : TMap) (k name : List Char) (sts : List (List Char)) : TMap :=
  match lookupKey m k with
  | none => m ++ [(k, ⟨name, dedup sts⟩)]
  | some r =>
    updateKey m k
      ⟨if r.theatre.length < name.length then name else r.theatre,
       dedup (r.showtimes ++ sts)⟩

/-- The insert-only-if-absent step shared by the third pass of
`extractTheatresAndShowtimes` (lines 425-430) and both sub-passes of
`extractTheatresAlternative` (lines 489-495 and 537-543): a colliding key
leaves the map untouched. -/
def insertIfAbsent (m : TMap) (k name : List Char) (sts : List (List Char)) : TMap :=
  if hasKey m k then m else m ++ [(k, ⟨name, dedup sts⟩)]

/-- Number of entries of the map carrying a given key. -/
def countKey (m : TMap) (k : List Char) : Nat :=
  (m.filter (fun e => e.1 = k)).length

/-- The keys of the map, in insertion order. -/
def keysOf (m : TMap) : List (List Char) := m.map (fun e => e.1)

/-- The keyword alternation shared by `theatrePatterns` 3, 7, 8 and 9. -/
def kwAlt : List (List Char) :=
  [sl ("cinema"), sl ("multiplex"), sl ("mall"), sl ("theatre"), sl ("pvr"),
   sl ("inox"), sl ("miraj"), sl ("asian"), sl ("aparna"), sl ("amb"),
   sl ("gpr"), sl ("cinemax"), sl ("cinepolis"), sl ("carnival")]

/-- The location alternation of `theatrePatterns` 4. -/
def locAlt : List (List Char) :=
  [sl ("hyderabad"), sl ("nacharam"), sl ("kushaiguda"), sl ("secunderabad"),
   sl ("moula ali"), sl ("ecil")]

/-- The generic alternation of `theatrePatterns` 5. -/
def kwAlt5 : List (List Char) :=
  [sl ("cinema"), sl ("theatre"), sl ("theatres")]

/-- Does one of the (lower-case) words occur in `pre`, starting at index one
or later?  This is the `[^X]+(?:words)[^X]*` shape of the prefix patterns:
the leading `+` demands at least one character before the word. -/
def kwAtGe1 (kws : List (List Char)) : List Char → Bool
  | [] => false
  | _ :: t => anySuffix (fun s => kws.any (fun k => ciPref k s)) t

/-- Case-insensitive substring occurrence (any start position). -/
def containsCI (hay pat : List Char) : Bool := anySuffix (fun s => ciPref pat s) hay

/-- `uk\s*cineplex` matched at the current position. -/
def ukCineplexHere (s : List Char) : Bool :=
  match ciConsume (sl ("uk")) s with
  | some r => ciPref (sl ("cineplex")) (takeWs r).2
  | none => false

/-- `theatrePatterns[0]` `/^([^:]*vyjayanthi[^:]*):/i`: the prefix before the
first colon, provided it mentions vyjayanthi. -/
def tpat1 (line : List Char) : Option (List Char) :=
  match splitAtFirst ':' line with
  | some p => if containsCI p.1 (sl ("vyjayanthi")) then some p.1 else none
  | none => none

/-- `theatrePatterns[1]` `/^([^:]*uk\s*cineplex[^:]*):/i`. -/
def tpat2 (line : List Char) : Option (List Char) :=
  match splitAtFirst ':' line with
  | some p => if anySuffix ukCineplexHere p.1 then some p.1 else none
  | none => none

/-- The `/^([^d]+(?:words)[^d]*)d/i` shape of `theatrePatterns` 3, 4, 5, 7
and 8, for delimiter `d`: the whole prefix before the first delimiter is
captured when one of the words occurs in it at index one or later. -/
def tpatDelim (d : Char) (kws : List (List Char)) (line : List Char) :
    Option (List Char) :=
  match splitAtFirst d line with
  | some p => if kwAtGe1 kws p.1 then some p.1 else none
  | none => none

/-- `theatrePatterns[5]` `/^([^:]+):\s*\d{1,2}:\d{2}\s*(am|pm|AM|PM)/i`. -/
def tpat6 (line : List Char) : Option (List Char) :=
  match splitAtFirst ':' line with
  | some p =>
    if decide (p.1 ≠ []) && (matchTimeHere (takeWs p.2).2).isSome
    then some p.1 else none
  | none => none

/-- `theatrePatterns[8]` `/^([^(]+(?:words)[^(]*)/i`: no trailing delimiter,
so the capture runs to the first parenthesis or the end of the line. -/
def tpat9 (line : List Char) : Option (List Char) :=
  let pre :=
    match splitAtFirst '(' line with
    | some p => p.1
    | none => line
  if kwAtGe1 kwAlt pre then some pre else none

/-- The ordered `theatrePatterns` list of `extractTheatresAndShowtimes`
(source lines 292-310): the first matching pattern yields `match[1].trim()`. -/
def tryPatterns (line : List Char) : Option (List Char) :=
  ((((((((tpat1 line).orElse (fun _ => tpat2 line)).orElse
      (fun _ => tpatDelim ':' kwAlt line)).orElse
      (fun _ => tpatDelim ':' locAlt line)).orElse
      (fun _ => tpatDelim ':' kwAlt5 line)).orElse
      (fun _ => tpat6 line)).orElse
      (fun _ => tpatDelim '-' kwAlt line)).orElse
      (fun _ => tpatDelim '.' kwAlt line)).orElse
      (fun _ => tpat9 line) |>.map trimBoth

/-- A first-pass candidate: source line index, extracted raw name, and the
trimmed original line. -/
structure Cand where
  index : Nat
  name : List Char
  originalLine : List Char
deriving DecidableEq

/-- One line of the first pass of `extractTheatresAndShowtimes` (source lines
315-344): try the prefix patterns, fall back to `isTheatreLine` (which may
touch `TIME_REGEX.lastIndex`), and record the candidate. -/
def pass1Step (acc : List Cand × Nat) (p : Nat × List Char) : List Cand × Nat :=
  let t := trimBoth p.2
  match tryPatterns t with
  | some nm =>
    if nm = [] then acc else (acc.1 ++ [⟨p.1, nm, t⟩], acc.2)
  | none =>
    let r := isTheatreLine t acc.2
    if r.1 then
      (if t = [] then (acc.1, r.2) else (acc.1 ++ [⟨p.1, t, t⟩], r.2))
    else (acc.1, r.2)

/-- The first pass over all lines. -/
def pass1 (lines : List (List Char)) (li0 : Nat) : List Cand × Nat :=
  (enumL lines).foldl pass1Step ([], li0)

/-- The times a candidate contributes: the windowed extraction plus the
inline matches of its own line (source lines 351-355). -/
def cTimesL (lines : List (List Char)) (c : Cand) : List (List Char) :=
  extractShowtimes lines c.index 15 ++ timeMatchAll c.originalLine

/-- A candidate's refined name (source line 359). -/
def cNameL (lines : List (List Char)) (c : Cand) : List Char :=
  improveTheatreName lines c.index c.name

/-- A candidate's normalized key (source lines 362-366). -/
def cKeyL (lines : List (List Char)) (c : Cand) : List Char :=
  normalizeKey (cNameL lines c)

/-- One candidate of the second (reconciliation) pass of
`extractTheatresAndShowtimes` (source lines 347-387): empty time lists are
discarded, everything else goes through `insertTheatre`. -/
def pass2Step (lines : List (List Char)) (m : TMap) (c : Cand) : TMap :=
  if cTimesL lines c = [] then m
  else insertTheatre m (cKeyL lines c) (cNameL lines c) (cTimesL lines c)

/-- The name extracted by the third pass: the trimmed prefix of the line
before the first occurrence of the first time match (source lines 413-414). -/
def pass3Name (t tm0 : List Char) : List Char :=
  trimBoth (t.take ((idxOf t tm0).getD 0))

/-- The insert of the third pass once a keyword+time line is accepted
(source lines 410-432): name is the trimmed prefix before the first time
token, and the key is only inserted when absent. -/
def pass3Insert (m : TMap) (t : List Char) : TMap :=
  match timeMatchAll t with
  | [] => m
  | tm0 :: _ =>
    if decide (3 < (pass3Name t tm0).length) then
      insertIfAbsent m (normalizeKey (pass3Name t tm0)) (pass3Name t tm0)
        (timeMatchAll t)
    else m

/-- One line of the third pass of `extractTheatresAndShowtimes` (source lines
391-434).  Claimed lines are skipped before any regex runs; otherwise the
stateful `TIME_REGEX.test` runs unconditionally, and when the line is
accepted the subsequent `match` calls reset `lastIndex` to `0`. -/
def pass3Step (claimed : List Nat) (acc : TMap × Nat) (p : Nat × List Char) :
    TMap × Nat :=
  if p.1 ∈ claimed then acc
  else
    if hasKeyword (trimBoth p.2) && (timeTest (trimBoth p.2) acc.2).1 &&
        decide (10 < (trimBoth p.2).length) &&
        decide ((trimBoth p.2).length < 150)
    then (pass3Insert acc.1 (trimBoth p.2), 0)
    else (acc.1, (timeTest (trimBoth p.2) acc.2).2)

/-- The line list of the engine: split on newlines, drop blank lines
(source line 288). -/
def extractLines (body : List Char) : List (List Char) :=
  (splitLines body).filter (fun l => trimBoth l ≠ [])

/-- The candidate list produced by the first pass. -/
def pass1Cands (body : List Char) (li0 : Nat) : List Cand :=
  (pass1 (extractLines body) li0).1

/-- The map after the first two strategies (prefix patterns plus classifier
fallback, reconciled through `insertTheatre`). -/
def pass2Map (body : List Char) (li0 : Nat) : TMap :=
  (pass1Cands body li0).foldl (pass2Step (extractLines body)) []

/-- `TIME_REGEX.lastIndex` after the second pass: any candidate at all makes
the pass call `String.match` on the global regex, which resets the index to
`0`; with no candidates the first pass's state survives. -/
def postPass2State (body : List Char) (li0 : Nat) : Nat :=
  if pass1Cands body li0 = [] then (pass1 (extractLines body) li0).2 else 0

/-- `extractTheatresAndShowtimes` down to its reconciliation map, together
with the final `TIME_REGEX.lastIndex`. -/
def extractMapAndState (body : List Char) (li0 : Nat) : TMap × Nat :=
  (enumL (extractLines body)).foldl
    (pass3Step ((pass1Cands body li0).map (fun c => c.index)))
    (pass2Map body li0, postPass2State body li0)

/-- `extractTheatresAndShowtimes(bodyText)` from the source (lines 287-437),
as a function of the body text and of the incoming `TIME_REGEX.lastIndex`;
it returns the record list (`Array.from(map.values())`) and the final
`lastIndex`. -/
def extractTheatresAndShowtimes (body : List Char) (li0 : Nat) :
    List TRec × Nat :=
  ((extractMapAndState body li0).1.map (fun e => e.2),
   (extractMapAndState body li0).2)

/-- `specificTheatres` of `extractTheatresAlternative`. -/
def specificTheatres : List (List Char) :=
  [sl ("vyjayanthi"), sl ("uk cineplex"), sl ("uk"), sl ("cineplex")]

/-- The name clean-up of `extractTheatresAlternative` (source lines 478-480
and 526-528): strip leading non-letters, then strip the trailing run of
characters outside `[a-zA-Z0-9\s\-.()]`. -/
def cleanName (s : List Char) : List Char :=
  ((s.dropWhile (fun c => !(c.isAlpha))).reverse.dropWhile
    (fun c => !(c.isAlphanum || c.isWhitespace || c = '-' || c = '.' ||
      c = '(' || c = ')'))).reverse

/-- The cleaned candidate name of the first sub-pass of
`extractTheatresAlternative`: the trimmed prefix before the first time,
with leading non-letters and trailing punctuation stripped. -/
def altName1 (t : List Char) (timeIndex : Nat) : List Char :=
  cleanName (trimBoth (t.take timeIndex))

/-- One line of the first sub-pass of `extractTheatresAlternative` (source
lines 450-498): keyword or specific theatre, at least one inline time, name
taken before the first time token, insert only when the key is absent. -/
def altPass1Step (m : TMap) (line : List Char) : TMap :=
  if decide ((trimBoth line).length < 8) || decide (300 < (trimBoth line).length)
  then m
  else
    if (hasKeyword (trimBoth line) ||
        specificTheatres.any (fun w => incl (lowerL (trimBoth line)) w)) &&
        decide (timeMatchAll (trimBoth line) ≠ []) then
      match timeMatchAll (trimBoth line) with
      | [] => m
      | ft :: _ =>
        match idxOf (trimBoth line) ft with
        | some timeIndex =>
          if decide (0 < timeIndex) then
            if decide (3 < (altName1 (trimBoth line) timeIndex).length) &&
                decide ((altName1 (trimBoth line) timeIndex).length < 100) then
              insertIfAbsent m (normalizeKey (altName1 (trimBoth line) timeIndex))
                (altName1 (trimBoth line) timeIndex) (timeMatchAll (trimBoth line))
            else m
          else m
        | none => m
    else m

/-- The nearby-window time collection of the second sub-pass of
`extractTheatresAlternative` (source lines 512-520). -/
def altNearby (lines : List (List Char)) (idx : Nat) : List (List Char) :=
  concatAll (((List.range lines.length).filter
    (fun i => decide (idx - 5 ≤ i) && decide (i < min lines.length (idx + 10)))).map
    (fun i => timeMatchAll (lines.getD i [])))

/-- One line of the second sub-pass of `extractTheatresAlternative` (source
lines 501-546): lines naming the specific target theatres pull times from
the window `[index-5, index+10)`, and again insert only when absent. -/
def altPass2Step (lines : List (List Char)) (m : TMap) (p : Nat × List Char) :
    TMap :=
  if incl (lowerL (trimBoth p.2)) (sl ("vyjayanthi")) ||
      incl (lowerL (trimBoth p.2)) (sl ("uk cineplex")) ||
      (incl (lowerL (trimBoth p.2)) (sl ("uk")) &&
       incl (lowerL (trimBoth p.2)) (sl ("cineplex"))) then
    if altNearby lines p.1 ≠ [] then
      if decide (3 < (cleanName (trimBoth p.2)).length) &&
          decide ((cleanName (trimBoth p.2)).length < 100) then
        insertIfAbsent m (normalizeKey (cleanName (trimBoth p.2)))
          (cleanName (trimBoth p.2)) (altNearby lines p.1)
      else m
    else m
  else m

/-- `extractTheatresAlternative(bodyText)` from the source (lines 442-549):
two sub-passes over the same lines into one first-wins map.  No stateful
regex call occurs here (only `String.match`), so no state is threaded. -/
def extractTheatresAlternative (body : List Char) : List TRec :=
  ((enumL (extractLines body)).foldl (altPass2Step (extractLines body))
    ((extractLines body).foldl altPass1Step [])).map (fun e => e.2)

/-- The bidirectional case-insensitive containment test of the merge in
`analyzeMoviePage` (source lines 803-811). -/
def containEither (ex nw : TRec) : Bool :=
  incl (lowerL ex.theatre) (lowerL nw.theatre) ||
  incl (lowerL nw.theatre) (lowerL ex.theatre)

/-- `allTheatres.some(existing => ...)` of the merge loops. -/
def theatreExists (acc : List TRec) (nw : TRec) : Bool :=
  acc.any (fun ex => containEither ex nw)

/-- The merge loop of `analyzeMoviePage` (source lines 799-833), run once per
extra list: a candidate is appended only when no accumulated record is in
bidirectional containment with it; otherwise it is dropped whole. -/
def mergeAdditional (primary extra : List TRec) : List TRec :=
  extra.foldl (fun acc nw => if theatreExists acc nw then acc else acc ++ [nw])
    primary

/-- A candidate contributes to key `k` when its extracted time list is
non-empty and its refined name normalises to `k`. -/
def isContrib (lines : List (List Char)) (k : List Char) (c : Cand) : Bool :=
  decide (cTimesL lines c ≠ []) && decide (cKeyL lines c = k)

/-- The invariant of the reconciliation map after processing the candidate
list `cs`: keys are distinct, a key is present exactly when it has a
contributor, and the stored time set is the union of the contributors'
extracted times. -/
def Inv2 (lines : List (List Char)) (cs : List Cand) (m : TMap) : Prop :=
  (keysOf m).Nodup ∧
  (∀ k, hasKey m k = cs.any (isContrib lines k)) ∧
  (∀ k r, lookupKey m k = some r →
    ∀ x, x ∈ r.showtimes ↔
      ∃ c, c ∈ cs ∧ isContrib lines k c = true ∧ x ∈ cTimesL lines c)

/-- Every record stored in the map has a non-empty time list. -/
def NonemptyShowtimes (m : TMap) : Prop := ∀ e, e ∈ m → e.2.showtimes ≠ []

/-- Two-line input exposing the mutable `lastIndex` of `TIME_REGEX`: the
first line is a third-pass record, the second leaves `lastIndex` at `32`. -/
def statefulInput : List Char :=
  sl ("cinema Select 1:00 pm\nzzzzzzzzzzzzzzzzzzzzzzzz 9:05 pm")

/-- Eleven-line input whose first two strategies already produce ten
records, plus one keyword+time line reachable only by the third pass. -/
def manyRecordsInput : List Char :=
  sl ("b1 cinema: 1:00 pm\nb2 cinema: 1:00 pm\nb3 cinema: 1:00 pm\nb4 cinema: 1:00 pm\nb5 cinema: 1:00 pm\nb6 cinema: 1:00 pm\nb7 cinema: 1:00 pm\nb8 cinema: 1:00 pm\nb9 cinema: 1:00 pm\nb10 cinema: 1:00 pm\ncinema Select 2:00 pm")

/-- A line whose only inclusion signal is a comma. -/
def commaOnlyLine : List Char := sl ("hello, world")

/-- The two-line input of the spec's concrete scenario 2. -/
def scenario2Input : List Char :=
  sl ("ABC Multiplex - 11:15 am\nABC Multiplex Hyderabad: 11:15 am, 4:45 pm")

/-- Two identical venue lines whose candidates share one normalized key. -/
def duplicateVenueInput : List Char := sl ("a cinema: 1:00 pm\na cinema: 1:00 pm")

/-- The first-line candidate produced by the first pass on
`duplicateVenueInput`. -/
def duplicateCand0 : Cand := ⟨0, sl ("a cinema"), sl ("a cinema: 1:00 pm")⟩

/-- The second-line candidate produced by the first pass on
`duplicateVenueInput`. -/
def duplicateCand1 : Cand := ⟨1, sl ("a cinema"), sl ("a cinema: 1:00 pm")⟩

/-- A one-line input producing exactly one record. -/
def singleVenueInput : List Char := sl ("a cinema: 1:00 pm")

/-- A primary record list for the merge demonstration. -/
def primaryDemo : List TRec := [⟨sl ("PVR Cinema Hyderabad"), [sl ("1:00 pm")]⟩]

/-- An alternative-pass candidate contained in the primary record's name and
carrying a time the primary lacks. -/
def droppedCandidate : TRec := ⟨sl ("pvr cinema"), [sl ("9:00 pm")]⟩

/-- A one-entry reconciliation map for the name tie demonstration. -/
def tieMap : TMap := [(sl ("k1"), ⟨sl ("Cinema"), [sl ("1:00 pm")]⟩)]

/-- Two lines whose alternative-pass names collide on one key. -/
def altCollisionInput : List Char := sl ("pvr alpha 1:00 pm\npvr alpha 2:00 pm")

/-! ### Generic lemmas about the embedded data structures -/

/-- A left fold preserves any invariant preserved by its step function. -/
theorem foldlInv {α β : Type} (P : α → Prop) (f : α → β → α)
    (hf : ∀ a b, P a → P (f a b)) :
    ∀ (l : List β) (a : α), P a → P (l.foldl f a) := by
  intro l
  induction l with
  | nil => intro a h; exact h
  | cons b t ih => intro a h; exact ih (f a b) (hf a b h)

/-- Membership in the deduplication worker. -/
theorem mem_dedupAux {α : Type} [DecidableEq α] :
    ∀ (l seen : List α) (x : α), x ∈ dedupAux seen l ↔ (x ∈ l ∧ x ∉ seen) := by
  intro l
  induction l with
  | nil => intro seen x; simp [dedupAux]
  | cons y t ih =>
    intro seen x
    by_cases hy : y ∈ seen
    · by_cases hxy : x = y <;> simp [dedupAux, hy, ih, hxy] <;> tauto
    · by_cases hxy : x = y <;> simp [dedupAux, hy, ih, hxy] <;> tauto

/-- `[...new Set(xs)]` has the same members as `xs`. -/
theorem mem_dedup {α : Type} [DecidableEq α] (l : List α) (x : α) :
    x ∈ dedup l ↔ x ∈ l := by
  simp [dedup, mem_dedupAux]

/-- Deduplication of a non-empty list is non-empty. -/
theorem dedup_ne_nil {α : Type} [DecidableEq α] (l : List α) (h : l ≠ []) :
    dedup l ≠ [] := by
  cases l with
  | nil => exact absurd rfl h
  | cons x t => simp [dedup, dedupAux]

/-- Taking the length of the left part of an append returns it. -/
theorem take_len_append {α : Type} (a b : List α) : (a ++ b).take a.length = a := by
  induction a with
  | nil => simp
  | cons x t ih => simp [ih]

/-- Dropping the length of the left part of an append returns the right part. -/
theorem drop_len_append {α : Type} (a b : List α) : (a ++ b).drop a.length = b := by
  induction a with
  | nil => simp
  | cons x t ih => simp [ih]

/-- Lookup distributes over append when the key is on the left. -/
theorem lookupKey_append_left (m1 m2 : TMap) (k : List Char)
    (h : (lookupKey m1 k).isSome) : lookupKey (m1 ++ m2) k = lookupKey m1 k := by
  induction m1 with
  | nil => simp [lookupKey] at h
  | cons e t ih =>
    by_cases he : e.1 = k
    · simp [lookupKey, he]
    · simp only [lookupKey, he, if_false, List.cons_append] at *
      exact ih h

/-- Lookup falls through an append when the key is absent on the left. -/
theorem lookupKey_append_right (m1 m2 : TMap) (k : List Char)
    (h : lookupKey m1 k = none) :
    lookupKey (m1 ++ m2) k = lookupKey m2 k := by
  induction m1 with
  | nil => simp [lookupKey]
  | cons e t ih =>
    by_cases he : e.1 = k
    · simp [lookupKey, he] at h
    · simp only [lookupKey, he, if_false, List.cons_append] at *
      exact ih h

/-- Appending a single differently-keyed entry does not change a lookup. -/
theorem lookupKey_append_single_other (m : TMap) (k k1 : List Char) (r : TRec)
    (h : k ≠ k1) : lookupKey (m ++ [(k1, r)]) k = lookupKey m k := by
  induction m with
  | nil => simp [lookupKey, Ne.symm h]
  | cons e t ih => by_cases he : e.1 = k <;> simp [lookupKey, he, ih]

/-- A successful lookup names an entry of the list. -/
theorem lookupKey_mem (m : TMap) (k : List Char) (r : TRec)
    (h : lookupKey m k = some r) : (k, r) ∈ m := by
  induction m with
  | nil => simp [lookupKey] at h
  | cons e t ih =>
    by_cases he : e.1 = k
    · simp [lookupKey, he] at h
      cases e with
      | mk k0 r0 =>
        simp at he h
        rw [he, h]
        exact List.mem_cons_self _ _
    · simp [lookupKey, he] at h
      exact List.mem_cons_of_mem _ (ih h)

/-- `Map.has` is membership in the key list. -/
theorem hasKey_iff_mem_keys (m : TMap) (k : List Char) :
    hasKey m k = true ↔ k ∈ keysOf m := by
  induction m with
  | nil => simp [hasKey, lookupKey, keysOf]
  | cons e t ih =>
    by_cases he : e.1 = k
    · have h2 : hasKey (e :: t) k = true := by simp [hasKey, lookupKey, he]
      have h3 : k ∈ keysOf (e :: t) := by
        simp only [keysOf, List.map_cons]
        rw [← he]
        exact List.mem_cons_self _ _
      simp [h2, h3]
    · have h1 : hasKey (e :: t) k = hasKey t k := by simp [hasKey, lookupKey, he]
      rw [h1, ih]
      simp only [keysOf, List.map_cons, List.mem_cons]
      constructor
      · exact fun hh => Or.inr hh
      · rintro (hh | hh)
        · exact absurd hh.symm he
        · exact hh

/-- A failed lookup means the key is not among the keys. -/
theorem lookupKey_none_iff (m : TMap) (k : List Char) :
    lookupKey m k = none ↔ k ∉ keysOf m := by
  rw [← hasKey_iff_mem_keys]
  unfold hasKey
  cases lookupKey m k <;> simp

/-- A successful lookup projects to the value list of the map. -/
theorem lookupKey_mem_values (m : TMap) (k : List Char) (r : TRec)
    (h : lookupKey m k = some r) : r ∈ m.map (fun e => e.2) := by
  have := lookupKey_mem m k r h
  exact List.mem_map.mpr ⟨(k, r), this, rfl⟩

/-- Updating a present key stores the new value at that key. -/
theorem lookupKey_updateKey_self (m : TMap) (k : List Char) (r2 : TRec)
    (h : (lookupKey m k).isSome) :
    lookupKey (updateKey m k r2) k = some r2 := by
  induction m with
  | nil => simp [lookupKey] at h
  | cons e t ih =>
    by_cases he : e.1 = k
    · simp [updateKey, he, lookupKey]
    · simp only [lookupKey, he, if_false] at h
      simp [updateKey, he, lookupKey, ih h]

/-- Updating one key leaves other lookups unchanged. -/
theorem lookupKey_updateKey_other (m : TMap) (k k2 : List Char) (r2 : TRec)
    (h : k2 ≠ k) : lookupKey (updateKey m k r2) k2 = lookupKey m k2 := by
  induction m with
  | nil => simp [updateKey, lookupKey]
  | cons e t ih =>
    by_cases he : e.1 = k
    · have hne : ¬(e.1 = k2) := by rw [he]; exact fun hh => h hh.symm
      simp [updateKey, he, lookupKey, hne, Ne.symm h]
    · by_cases he2 : e.1 = k2
      · simp [updateKey, he, lookupKey, he2, h]
      · simp [updateKey, he, lookupKey, he2, ih]

/-- Updating preserves the key list. -/
theorem keysOf_updateKey (m : TMap) (k : List Char) (r2 : TRec) :
    keysOf (updateKey m k r2) = keysOf m := by
  induction m with
  | nil => rfl
  | cons e t ih =>
    by_cases he : e.1 = k
    · simp [updateKey, he, keysOf]
    · simp only [updateKey, he, if_false, keysOf, List.map_cons]
      have h2 := ih
      simp only [keysOf] at h2
      rw [h2]

/-- Every entry of an updated map is an old entry or the updated pair. -/
theorem mem_updateKey (m : TMap) (k : List Char) (r2 : TRec) (e : List Char × TRec)
    (h : e ∈ updateKey m k r2) : e ∈ m ∨ e = (k, r2) := by
  induction m with
  | nil => simp [updateKey] at h
  | cons f t ih =>
    by_cases hf : f.1 = k
    · simp only [updateKey, hf, if_true] at h
      rcases List.mem_cons.mp h with h | h
      · right; exact h
      · left; exact List.mem_cons_of_mem _ h
    · simp only [updateKey, hf, if_false] at h
      rcases List.mem_cons.mp h with h | h
      · left; rw [h]; exact List.mem_cons_self _ _
      · rcases ih h with hh | hh
        · left; exact List.mem_cons_of_mem _ hh
        · right; exact hh

/-- Inserting a fresh key stores the deduplicated time list under it. -/
theorem lookupKey_insertTheatre_none (m : TMap) (k n : List Char)
    (s : List (List Char)) (h : lookupKey m k = none) :
    lookupKey (insertTheatre m k n s) k = some ⟨n, dedup s⟩ := by
  unfold insertTheatre
  rw [h, lookupKey_append_right m _ k h]
  simp [lookupKey]

/-- Inserting into an occupied key unions the time sets and keeps the
longer name (strictly longer replaces). -/
theorem lookupKey_insertTheatre_some (m : TMap) (k n : List Char)
    (s : List (List Char)) (r : TRec) (h : lookupKey m k = some r) :
    lookupKey (insertTheatre m k n s) k =
      some ⟨if r.theatre.length < n.length then n else r.theatre,
            dedup (r.showtimes ++ s)⟩ := by
  unfold insertTheatre
  rw [h]
  exact lookupKey_updateKey_self m k _ (by simp [h])

/-- Inserting one key leaves the lookups of other keys unchanged. -/
theorem lookupKey_insertTheatre_other (m : TMap) (k k2 n : List Char)
    (s : List (List Char)) (h : k2 ≠ k) :
    lookupKey (insertTheatre m k n s) k2 = lookupKey m k2 := by
  unfold insertTheatre
  cases hm : lookupKey m k with
  | none => exact lookupKey_append_single_other m k2 k _ h
  | some r => exact lookupKey_updateKey_other m k k2 _ h

/-- The key list after an insert. -/
theorem keysOf_insertTheatre (m : TMap) (k n : List Char) (s : List (List Char)) :
    keysOf (insertTheatre m k n s) =
      if hasKey m k then keysOf m else keysOf m ++ [k] := by
  unfold insertTheatre hasKey
  cases hm : lookupKey m k with
  | none => simp [keysOf]
  | some r => simp [keysOf_updateKey]

/-- Inserting preserves distinctness of the keys. -/
theorem nodup_insertTheatre (m : TMap) (k n : List Char) (s : List (List Char))
    (h : (keysOf m).Nodup) : (keysOf (insertTheatre m k n s)).Nodup := by
  rw [keysOf_insertTheatre]
  by_cases hk : hasKey m k
  · simp [hk, h]
  · rw [if_neg hk]
    rw [List.nodup_append]
    refine ⟨h, List.nodup_singleton k, ?_⟩
    intro a ha hb
    simp at hb
    rw [hb] at ha
    exact hk ((hasKey_iff_mem_keys m k).mpr ha)

/-- An entry of an inserted map is an old entry, the freshly inserted pair,
or an update of the looked-up record. -/
theorem mem_insertTheatre (m : TMap) (k n : List Char) (s : List (List Char))
    (e : List Char × TRec) (h : e ∈ insertTheatre m k n s) :
    e ∈ m ∨ e = (k, ⟨n, dedup s⟩) ∨
      ∃ r, lookupKey m k = some r ∧
        e = (k, ⟨if r.theatre.length < n.length then n else r.theatre,
                 dedup (r.showtimes ++ s)⟩) := by
  unfold insertTheatre at h
  cases hm : lookupKey m k with
  | none =>
    rw [hm] at h
    rcases List.mem_append.mp h with h2 | h2
    · exact Or.inl h2
    · simp at h2
      exact Or.inr (Or.inl h2)
  | some r =>
    rw [hm] at h
    rcases mem_updateKey m k _ e h with h2 | h2
    · exact Or.inl h2
    · exact Or.inr (Or.inr ⟨r, rfl, h2⟩)

/-- `insertIfAbsent` on a present key is the identity. -/
theorem insertIfAbsent_of_hasKey (m : TMap) (k n : List Char)
    (s : List (List Char)) (h : hasKey m k = true) :
    insertIfAbsent m k n s = m := by
  simp [insertIfAbsent, h]

/-- `insertIfAbsent` leaves the lookup of every present key unchanged. -/
theorem lookupKey_insertIfAbsent_preserve (m : TMap) (k k2 n : List Char)
    (s : List (List Char)) (h : (lookupKey m k2).isSome) :
    lookupKey (insertIfAbsent m k n s) k2 = lookupKey m k2 := by
  unfold insertIfAbsent
  by_cases hk : hasKey m k
  · simp [hk]
  · simp only [hk, if_false]
    exact lookupKey_append_left m _ k2 h

/-- `insertIfAbsent` preserves distinctness of the keys. -/
theorem nodup_insertIfAbsent (m : TMap) (k n : List Char) (s : List (List Char))
    (h : (keysOf m).Nodup) : (keysOf (insertIfAbsent m k n s)).Nodup := by
  unfold insertIfAbsent
  by_cases hk : hasKey m k
  · simp [hk, h]
  · rw [if_neg hk]
    simp only [keysOf, List.map_append]
    rw [List.nodup_append]
    refine ⟨h, ?_, ?_⟩
    · simp
    · intro a ha hb
      simp at hb
      rw [hb] at ha
      exact hk ((hasKey_iff_mem_keys m k).mpr ha)

/-- An entry after `insertIfAbsent` is an old entry or the fresh pair. -/
theorem mem_insertIfAbsent (m : TMap) (k n : List Char) (s : List (List Char))
    (e : List Char × TRec) (h : e ∈ insertIfAbsent m k n s) :
    e ∈ m ∨ e = (k, ⟨n, dedup s⟩) := by
  unfold insertIfAbsent at h
  by_cases hk : hasKey m k
  · rw [if_pos hk] at h
    exact Or.inl h
  · rw [if_neg hk] at h
    rcases List.mem_append.mp h with h2 | h2
    · exact Or.inl h2
    · simp at h2
      exact Or.inr h2

/-- A key absent from a map is counted zero times. -/
theorem countKey_eq_zero (m : TMap) (k : List Char) (h : k ∉ keysOf m) :
    countKey m k = 0 := by
  induction m with
  | nil => rfl
  | cons e t ih =>
    simp only [keysOf, List.map_cons, List.mem_cons] at h
    push_neg at h
    have he : (decide (e.1 = k)) = false := by
      simp only [decide_eq_false_iff_not]
      exact fun hh => h.1 hh.symm
    simp only [countKey, List.filter_cons, he, if_false, Bool.false_eq_true]
    refine ih ?_
    simp only [keysOf]
    exact h.2

/-- With distinct keys, a present key is counted exactly once. -/
theorem countKey_eq_one (m : TMap) (k : List Char)
    (hn : (keysOf m).Nodup) (hk : hasKey m k = true) : countKey m k = 1 := by
  induction m with
  | nil => simp [hasKey, lookupKey] at hk
  | cons e t ih =>
    simp only [keysOf, List.map_cons, List.nodup_cons] at hn
    by_cases he : e.1 = k
    · have hd : (decide (e.1 = k)) = true := by simp [he]
      simp only [countKey, List.filter_cons, hd, if_true, List.length_cons]
      have h0 : countKey t k = 0 := by
        refine countKey_eq_zero t k ?_
        rw [← he]
        exact hn.1
      simp only [countKey] at h0
      simp [h0]
    · have hd : (decide (e.1 = k)) = false := by simp [he]
      simp only [countKey, List.filter_cons, hd, if_false, Bool.false_eq_true]
      have hk2 : hasKey t k = true := by
        simp only [hasKey, lookupKey, he, if_false] at hk
        exact hk
      exact ih hn.2 hk2

/-! ### The reconciliation invariant of the second pass -/

/-- `hasKey` after an insert. -/
theorem hasKey_insertTheatre (m : TMap) (k n : List Char) (s : List (List Char))
    (k2 : List Char) :
    hasKey (insertTheatre m k n s) k2 = (hasKey m k2 || decide (k2 = k)) := by
  by_cases h2 : k2 = k
  · subst h2
    cases hm : lookupKey m k2 with
    | none =>
      have hl := lookupKey_insertTheatre_none m k2 n s hm
      simp [hasKey, hl]
    | some r =>
      have hl := lookupKey_insertTheatre_some m k2 n s r hm
      simp [hasKey, hl]
  · have hl := lookupKey_insertTheatre_other m k k2 n s h2
    simp [hasKey, hl, h2]

/-- Appending a non-contributing candidate does not change the contributor set. -/
theorem exists_contrib_append_false (lines : List (List Char)) (cs : List Cand)
    (c : Cand) (k : List Char) (hc : isContrib lines k c = false) (x : List Char) :
    (∃ c2, c2 ∈ cs ++ [c] ∧ isContrib lines k c2 = true ∧ x ∈ cTimesL lines c2) ↔
    (∃ c2, c2 ∈ cs ∧ isContrib lines k c2 = true ∧ x ∈ cTimesL lines c2) := by
  constructor
  · rintro ⟨c2, hc2, hic, hx⟩
    rcases List.mem_append.mp hc2 with hm | hm
    · exact ⟨c2, hm, hic, hx⟩
    · simp at hm
      rw [hm, hc] at hic
      exact Bool.noConfusion hic
  · rintro ⟨c2, hc2, hic, hx⟩
    exact ⟨c2, List.mem_append_left _ hc2, hic, hx⟩

/-- One step of the second pass preserves the reconciliation invariant. -/
theorem pass2Step_inv (lines : List (List Char)) (cs : List Cand) (m : TMap)
    (c : Cand) (h : Inv2 lines cs m) :
    Inv2 lines (cs ++ [c]) (pass2Step lines m c) := by
  obtain ⟨hnd, hhk, hlk⟩ := h
  unfold pass2Step
  by_cases hT : cTimesL lines c = []
  · rw [if_pos hT]
    have hic : isContrib lines (cKeyL lines c) c = false := by simp [isContrib, hT]
    refine ⟨hnd, ?_, ?_⟩
    · intro k
      rw [hhk k, List.any_append]
      have hf : isContrib lines k c = false := by simp [isContrib, hT]
      simp [hf]
    · intro k r hr x
      rw [hlk k r hr x]
      exact (exists_contrib_append_false lines cs c k (by simp [isContrib, hT]) x).symm
  · rw [if_neg hT]
    have hTk : isContrib lines (cKeyL lines c) c = true := by simp [isContrib, hT]
    refine ⟨nodup_insertTheatre _ _ _ _ hnd, ?_, ?_⟩
    · intro k
      rw [hasKey_insertTheatre, hhk k, List.any_append]
      have hone : (List.any [c] (isContrib lines k)) = isContrib lines k c := by simp
      rw [hone]
      have hco : isContrib lines k c = decide (k = cKeyL lines c) := by
        simp only [isContrib]
        rw [show decide (cTimesL lines c ≠ []) = true by simp [hT]]
        rw [Bool.true_and]
        apply decide_eq_decide.mpr
        constructor
        · exact Eq.symm
        · exact Eq.symm
      rw [hco]
    · intro k r hr x
      by_cases hkk : k = cKeyL lines c
      · subst hkk
        cases hm : lookupKey m (cKeyL lines c) with
        | none =>
          rw [lookupKey_insertTheatre_none m (cKeyL lines c) _ _ hm] at hr
          have hre : r = ⟨cNameL lines c, dedup (cTimesL lines c)⟩ :=
            (Option.some.inj hr).symm
          rw [hre]
          simp only
          rw [mem_dedup]
          constructor
          · intro hx
            exact ⟨c, List.mem_append_right _ (List.mem_singleton.mpr rfl), hTk, hx⟩
          · rintro ⟨c2, hc2, hic, hx⟩
            rcases List.mem_append.mp hc2 with hmm | hmm
            · have hany : cs.any (isContrib lines (cKeyL lines c)) = true :=
                List.any_eq_true.mpr ⟨c2, hmm, hic⟩
              rw [← hhk (cKeyL lines c)] at hany
              simp [hasKey, hm] at hany
            · simp at hmm
              rw [hmm] at hx
              exact hx
        | some r0 =>
          rw [lookupKey_insertTheatre_some m (cKeyL lines c) _ _ r0 hm] at hr
          have hre : r = ⟨if r0.theatre.length < (cNameL lines c).length
              then cNameL lines c else r0.theatre,
              dedup (r0.showtimes ++ cTimesL lines c)⟩ :=
            (Option.some.inj hr).symm
          rw [hre]
          simp only
          rw [mem_dedup, List.mem_append]
          rw [hlk (cKeyL lines c) r0 hm x]
          constructor
          · rintro (⟨c2, hc2, hic, hx⟩ | hx)
            · exact ⟨c2, List.mem_append_left _ hc2, hic, hx⟩
            · exact ⟨c, List.mem_append_right _ (List.mem_singleton.mpr rfl), hTk, hx⟩
          · rintro ⟨c2, hc2, hic, hx⟩
            rcases List.mem_append.mp hc2 with hmm | hmm
            · exact Or.inl ⟨c2, hmm, hic, hx⟩
            · simp at hmm
              rw [hmm] at hx
              exact Or.inr hx
      · rw [lookupKey_insertTheatre_other m _ k _ _ hkk] at hr
        rw [hlk k r hr x]
        refine (exists_contrib_append_false lines cs c k ?_ x).symm
        simp only [isContrib]
        rw [show decide (cKeyL lines c = k) = false by
          simp
          exact fun hh => hkk hh.symm]
        rw [Bool.and_false]

/-- The invariant holds of the empty map before any candidate is processed. -/
theorem Inv2_nil (lines : List (List Char)) : Inv2 lines [] [] := by
  refine ⟨List.nodup_nil, ?_, ?_⟩
  · intro k; rfl
  · intro k r hr; exact absurd hr (by simp [lookupKey])

/-- Folding the second pass over a candidate list preserves the invariant. -/
theorem pass2_fold_inv (lines : List (List Char)) :
    ∀ (todo done : List Cand) (m : TMap), Inv2 lines done m →
      Inv2 lines (done ++ todo) (todo.foldl (pass2Step lines) m) := by
  intro todo
  induction todo with
  | nil => intro done m h; simpa using h
  | cons c t ih =>
    intro done m h
    have h3 := ih (done ++ [c]) (pass2Step lines m c) (pass2Step_inv lines done m c h)
    rw [List.append_assoc] at h3
    simpa using h3

/-! ### The third pass preserves present keys -/

/-- `pass3Insert` never touches a present key. -/
theorem lookupKey_pass3Insert_preserve (m : TMap) (t k : List Char)
    (h : (lookupKey m k).isSome) :
    lookupKey (pass3Insert m t) k = lookupKey m k := by
  unfold pass3Insert
  split
  · rfl
  · split
    · exact lookupKey_insertIfAbsent_preserve _ _ _ _ _ h
    · rfl

/-- `pass3Insert` preserves distinctness of the keys. -/
theorem nodup_pass3Insert (m : TMap) (t : List Char)
    (h : (keysOf m).Nodup) : (keysOf (pass3Insert m t)).Nodup := by
  unfold pass3Insert
  split
  · exact h
  · split
    · exact nodup_insertIfAbsent _ _ _ _ h
    · exact h

/-- The map component of a third-pass step is the old map or a `pass3Insert`. -/
theorem pass3Step_fst (claimed : List Nat) (acc : TMap × Nat) (p : Nat × List Char) :
    (pass3Step claimed acc p).1 = acc.1 ∨
    ∃ t, (pass3Step claimed acc p).1 = pass3Insert acc.1 t := by
  unfold pass3Step
  split
  · exact Or.inl rfl
  · split
    · exact Or.inr ⟨_, rfl⟩
    · exact Or.inl rfl

/-- The third pass preserves the lookup of every key present before it. -/
theorem pass3_fold_preserve (claimed : List Nat) (k : List Char) :
    ∀ (l : List (Nat × List Char)) (acc : TMap × Nat),
      (lookupKey acc.1 k).isSome →
      lookupKey ((l.foldl (pass3Step claimed) acc).1) k = lookupKey acc.1 k := by
  intro l
  induction l with
  | nil => intro acc _; rfl
  | cons p t ih =>
    intro acc h
    have h2 : lookupKey (pass3Step claimed acc p).1 k = lookupKey acc.1 k := by
      rcases pass3Step_fst claimed acc p with h1 | ⟨tt, h1⟩
      · rw [h1]
      · rw [h1]; exact lookupKey_pass3Insert_preserve _ _ _ h
    rw [List.foldl_cons, ih _ (by rw [h2]; exact h), h2]

/-- The third pass preserves distinctness of the keys. -/
theorem pass3_fold_nodup (claimed : List Nat) :
    ∀ (l : List (Nat × List Char)) (acc : TMap × Nat),
      (keysOf acc.1).Nodup →
      (keysOf ((l.foldl (pass3Step claimed) acc).1)).Nodup := by
  intro l
  induction l with
  | nil => intro acc h; exact h
  | cons p t ih =>
    intro acc h
    have h2 : (keysOf (pass3Step claimed acc p).1).Nodup := by
      rcases pass3Step_fst claimed acc p with h1 | ⟨tt, h1⟩
      · rw [h1]; exact h
      · rw [h1]; exact nodup_pass3Insert _ _ h
    rw [List.foldl_cons]
    exact ih _ h2

/-! ### Non-emptiness of every stored time set -/

/-- The empty map satisfies the invariant. -/
theorem NonemptyShowtimes_nil : NonemptyShowtimes [] := by
  intro e he
  exact absurd he (List.not_mem_nil e)

/-- `insertTheatre` with non-empty times preserves the invariant. -/
theorem nonempty_insertTheatre (m : TMap) (k n : List Char)
    (s : List (List Char)) (hs : s ≠ []) (h : NonemptyShowtimes m) :
    NonemptyShowtimes (insertTheatre m k n s) := by
  intro e he
  rcases mem_insertTheatre m k n s e he with h2 | h2 | ⟨r, hlr, h2⟩
  · exact h e h2
  · rw [h2]; exact dedup_ne_nil _ hs
  · rw [h2]
    refine dedup_ne_nil _ ?_
    intro happ
    rcases List.append_eq_nil.mp happ with ⟨_, h4⟩
    exact hs h4

/-- `insertIfAbsent` with non-empty times preserves the invariant. -/
theorem nonempty_insertIfAbsent (m : TMap) (k n : List Char)
    (s : List (List Char)) (hs : s ≠ []) (h : NonemptyShowtimes m) :
    NonemptyShowtimes (insertIfAbsent m k n s) := by
  intro e he
  rcases mem_insertIfAbsent m k n s e he with h2 | h2
  · exact h e h2
  · rw [h2]; exact dedup_ne_nil _ hs

/-- The second pass preserves the invariant (empty-time candidates are
discarded before insertion). -/
theorem nonempty_pass2Step (lines : List (List Char)) (m : TMap) (c : Cand)
    (h : NonemptyShowtimes m) : NonemptyShowtimes (pass2Step lines m c) := by
  unfold pass2Step
  split
  · exact h
  · next hT => exact nonempty_insertTheatre _ _ _ _ hT h

/-- The third-pass insert preserves the invariant (the inserted time list is
the non-empty match list). -/
theorem nonempty_pass3Insert (m : TMap) (t : List Char)
    (h : NonemptyShowtimes m) : NonemptyShowtimes (pass3Insert m t) := by
  unfold pass3Insert
  split
  · exact h
  · next tm0 tl heq =>
    split
    · refine nonempty_insertIfAbsent _ _ _ _ ?_ h
      rw [heq]
      simp
    · exact h

/-- A third-pass step preserves the invariant. -/
theorem nonempty_pass3Step (claimed : List Nat) (acc : TMap × Nat)
    (p : Nat × List Char) (h : NonemptyShowtimes acc.1) :
    NonemptyShowtimes (pass3Step claimed acc p).1 := by
  rcases pass3Step_fst claimed acc p with h1 | ⟨t, h1⟩
  · rw [h1]; exact h
  · rw [h1]; exact nonempty_pass3Insert _ _ h

/-- The first alternative sub-pass preserves the invariant. -/
theorem nonempty_altPass1Step (m : TMap) (line : List Char)
    (h : NonemptyShowtimes m) : NonemptyShowtimes (altPass1Step m line) := by
  unfold altPass1Step
  split
  · exact h
  · split
    · split
      · exact h
      · next ft tl heq =>
        split
        · split
          · split
            · refine nonempty_insertIfAbsent _ _ _ _ ?_ h
              rw [heq]
              simp
            · exact h
          · exact h
        · exact h
    · exact h

/-- The second alternative sub-pass preserves the invariant. -/
theorem nonempty_altPass2Step (lines : List (List Char)) (m : TMap)
    (p : Nat × List Char) (h : NonemptyShowtimes m) :
    NonemptyShowtimes (altPass2Step lines m p) := by
  unfold altPass2Step
  split
  · split
    · next hne =>
      split
      · exact nonempty_insertIfAbsent _ _ _ _ hne h
      · exact h
    · exact h
  · exact h

/-! ### The time pattern needs a colon -/

/-- A successful tail match starts with a colon. -/
theorem matchTimeTail_colon (u : List Char) (m r : List Char)
    (h : matchTimeTail u = some (m, r)) : ':' ∈ u := by
  unfold matchTimeTail at h
  split at h
  · exact List.mem_cons_self _ _
  · exact absurd h (by simp)

/-- A successful time match contains a colon. -/
theorem matchTimeHere_colon (s : List Char) (m r : List Char)
    (h : matchTimeHere s = some (m, r)) : ':' ∈ s := by
  unfold matchTimeHere at h
  split at h
  · exact absurd h (by simp)
  · next d1 rest =>
    split at h
    · split at h
      · exact absurd h (by simp)
      · next d2 rest2 =>
        split at h
        · split at h
          · next mm rr heq =>
            refine List.mem_cons_of_mem _ ?_
            refine List.mem_cons_of_mem _ ?_
            exact matchTimeTail_colon _ _ _ heq
          · split at h
            · next mm rr heq =>
              refine List.mem_cons_of_mem _ ?_
              exact matchTimeTail_colon _ _ _ heq
            · exact absurd h (by simp)
        · split at h
          · next mm rr heq =>
            refine List.mem_cons_of_mem _ ?_
            exact matchTimeTail_colon _ _ _ heq
          · exact absurd h (by simp)
    · exact absurd h (by simp)

/-- The leftmost-match search fails on colon-free text. -/
theorem timeSearch_none (s : List Char) (pos : Nat) (h : ':' ∉ s) :
    timeSearch s pos = none := by
  induction s generalizing pos with
  | nil => rfl
  | cons c t ih =>
    unfold timeSearch
    cases hm : matchTimeHere (c :: t) with
    | some p =>
      exact absurd (matchTimeHere_colon _ p.1 p.2 (by rw [hm])) h
    | none =>
      simp only [hm]
      exact ih (pos + 1) (fun hh => h (List.mem_cons_of_mem _ hh))

/-- `TIME_REGEX.test` returns false on a line with no colon. -/
theorem timeTest_false_of_no_colon (line : List Char) (li : Nat)
    (h : ':' ∉ line) : (timeTest line li).1 = false := by
  unfold timeTest
  split
  · rfl
  · rw [timeSearch_none _ _ (fun hh => h (List.drop_subset li line hh))]

/-- `hay.includes(c)` for a single character is membership. -/
theorem incl_singleton (l : List Char) (c : Char) : incl l [c] = true ↔ c ∈ l := by
  induction l with
  | nil => simp [incl, anySuffix, List.isPrefixOf]
  | cons x t ih =>
    have h1 : incl (x :: t) [c] = (List.isPrefixOf [c] (x :: t) || incl t [c]) := rfl
    rw [h1]
    simp only [List.isPrefixOf, Bool.or_eq_true, List.mem_cons]
    rw [ih]
    constructor
    · rintro (hh | hh)
      · left
        have h2 := (Bool.and_eq_true _ _).mp hh
        exact beq_iff_eq.mp h2.1
      · right; exact hh
    · rintro (hh | hh)
      · left
        rw [hh]
        simp [List.isPrefixOf]
      · right; exact hh

/-! ### The merge of the alternative pass -/

/-- The merge fold appends a (containment-free) suffix to the accumulator. -/
theorem mergeAdditional_split :
    ∀ (e acc : List TRec), ∃ s, mergeAdditional acc e = acc ++ s ∧
      ∀ x, x ∈ s → theatreExists acc x = false := by
  intro e
  induction e with
  | nil =>
    intro acc
    refine ⟨[], by simp [mergeAdditional], ?_⟩
    intro x hx
    exact absurd hx (List.not_mem_nil x)
  | cons c t ih =>
    intro acc
    by_cases hex : theatreExists acc c = true
    · obtain ⟨s, h1, h2⟩ := ih acc
      refine ⟨s, ?_, h2⟩
      rw [← h1]
      simp [mergeAdditional, hex]
    · obtain ⟨s, h1, h2⟩ := ih (acc ++ [c])
      have hexf : theatreExists acc c = false := by
        cases hxx : theatreExists acc c
        · rfl
        · exact absurd hxx hex
      refine ⟨c :: s, ?_, ?_⟩
      · have h3 : mergeAdditional acc (c :: t) = mergeAdditional (acc ++ [c]) t := by
          simp [mergeAdditional, hexf]
        rw [h3, h1, List.append_assoc]
        rfl
      · intro x hx
        rcases List.mem_cons.mp hx with hh | hh
        · rw [hh]; exact hexf
        · have h4 := h2 x hh
          unfold theatreExists at h4
          rw [List.any_append] at h4
          exact (Bool.or_eq_false_iff.mp h4).1

/-! ### The claims -/

/-- C1: `extractTheatresAndShowtimes` is not a pure function of its input:
on `statefulInput` the first call returns one record, but an immediately
following call on the same text returns none, because the `g` flag of
`TIME_REGEX` makes `test()` carry its `lastIndex` across calls.  This
evaluates the embedded (state-threaded) code at the failing input. -/
theorem extract_second_call_differs :
    (extractTheatresAndShowtimes statefulInput 0).1.length = 1 ∧
    (extractTheatresAndShowtimes statefulInput
      (extractTheatresAndShowtimes statefulInput 0).2).1 = [] := by
  constructor
  · decide
  · decide

/-- C3 counterexample: on `manyRecordsInput` the first two strategies
reconcile to ten records, yet the output has eleven — the keyword+time
co-occurrence pass contributed a record although the record count had
already reached the claimed threshold of 10. -/
theorem third_pass_runs_despite_ten_records :
    (pass2Map manyRecordsInput 0).length = 10 ∧
    (extractTheatresAndShowtimes manyRecordsInput 0).1.length = 11 := by
  constructor
  · decide
  · decide

/-- C3 amended: the keyword+time co-occurrence pass runs unconditionally
(the fewer-than-ten threshold only gates the separate alternative pass in
`analyzeMoviePage`); even with ten or more reconciled records it can add a
fresh key, here `"cinema select"`. -/
theorem third_pass_unconditional :
    10 ≤ (pass2Map manyRecordsInput 0).length ∧
    hasKey (pass2Map manyRecordsInput 0) (sl ("cinema select")) = false ∧
    hasKey (extractMapAndState manyRecordsInput 0).1 (sl ("cinema select")) = true := by
  refine ⟨by decide, by decide, by decide⟩

/-- C4 counterexample: `"hello, world"` satisfies every negative condition
and contains a comma (with no curated keyword, format pattern, locality or
time token), yet `isTheatreLine` rejects it — a comma alone is not a
sufficient inclusion signal. -/
theorem comma_alone_does_not_suffice :
    negativesOk commaOnlyLine = true ∧ incl commaOnlyLine [','] = true ∧
    inclGroup1 commaOnlyLine = false ∧
    isTheatreLine commaOnlyLine 0 = (false, 0) := by
  refine ⟨by decide, by decide, by decide, by decide⟩

/-- C4 amended: `isTheatreLine` accepts a line exactly when the first
inclusion group (curated keyword, screen-format pattern, cinema-colon
pattern, or colon-locality pattern) holds, AND the negative conditions
hold, AND the separator group (colon, comma, dash separator, locality, or
`\d+(mm|k)`) holds; the trailing time-token disjunct can never decide the
outcome because a time token contains a colon. -/
theorem isTheatreLine_characterization (line : List Char) (li : Nat) :
    (isTheatreLine line li).1 =
      (inclGroup1 line && negativesOk line && sepPure line) := by
  unfold isTheatreLine
  by_cases h1 : (inclGroup1 line && negativesOk line) = true
  · rw [if_pos h1]
    by_cases h2 : sepPure line = true
    · rw [if_pos h2, h1, h2]
      rfl
    · have h2f : sepPure line = false := by
        cases hxx : sepPure line
        · rfl
        · exact absurd hxx h2
      rw [if_neg h2]
      have h3 : incl line [':'] = false := by
        have h5 := h2f
        simp only [sepPure, Bool.or_eq_false_iff] at h5
        exact h5.1.1.1.1
      have h4 : ':' ∉ line := by
        intro hm
        have h6 := (incl_singleton line ':').mpr hm
        rw [h3] at h6
        exact Bool.noConfusion h6
      rw [timeTest_false_of_no_colon line li h4, h1, h2f]
      rfl
  · rw [if_neg h1]
    have h1f : (inclGroup1 line && negativesOk line) = false := by
      cases hxx : inclGroup1 line && negativesOk line
      · rfl
      · exact absurd hxx h1
    rw [h1f]
    rfl

/-- C5 counterexample: on the spec's concrete scenario 2 input the engine
returns two records, not the claimed single merged record. -/
theorem scenario2_two_records :
    (extractTheatresAndShowtimes scenario2Input 0).1.length = 2 := by decide

/-- C5 amended: the two lines yield two separate records — the refiner
replaces each raw name with its full original line (time text included), so
the normalized keys differ and no merge happens; each record still carries
both times because the extraction window spans both lines. -/
theorem scenario2_actual_output :
    (extractTheatresAndShowtimes scenario2Input 0).1 =
      [⟨sl ("ABC Multiplex - 11:15 am"), [sl ("11:15 am"), sl ("4:45 pm")]⟩,
       ⟨sl ("ABC Multiplex Hyderabad: 11:15 am, 4:45 pm"),
        [sl ("11:15 am"), sl ("4:45 pm")]⟩] := by decide

/-- C6: the merge of `analyzeMoviePage` never touches the primary records
(they survive as an unchanged prefix, names and time sets intact), and a
candidate in bidirectional case-insensitive containment with some primary
record is dropped entirely — no time-set union happens across the
primary/alternative boundary, whatever times the candidate carries. -/
theorem alternative_merge_drops_contained_candidate (p e : List TRec) (c : TRec)
    (h : ∃ r, r ∈ p ∧ containEither r c = true) :
    (mergeAdditional p e).take p.length = p ∧
    c ∉ (mergeAdditional p e).drop p.length := by
  obtain ⟨s, hs, hall⟩ := mergeAdditional_split e p
  rw [hs, take_len_append, drop_len_append]
  refine ⟨rfl, ?_⟩
  intro hc
  have h4 := hall c hc
  obtain ⟨r, hr, hce⟩ := h
  have h5 : theatreExists p c = true := List.any_eq_true.mpr ⟨r, hr, hce⟩
  rw [h4] at h5
  exact Bool.noConfusion h5

/-- C6 witness: a candidate whose name is contained in the primary record's
name, carrying a time the primary lacks, is dropped whole and the primary
list survives unchanged. -/
theorem alternative_merge_drops_contained_candidate_witness :
    (mergeAdditional primaryDemo [droppedCandidate]).take primaryDemo.length =
      primaryDemo ∧
    droppedCandidate ∉
      (mergeAdditional primaryDemo [droppedCandidate]).drop primaryDemo.length :=
  alternative_merge_drops_contained_candidate primaryDemo [droppedCandidate]
    droppedCandidate
    ⟨⟨sl ("PVR Cinema Hyderabad"), [sl ("1:00 pm")]⟩, by decide, by decide⟩

/-- C8: any line matching an exclusion pattern is rejected by
`isTheatreLine` (with the regex state untouched), so it can never become a
candidate through the classifier fallback, whatever inclusion signals it
carries. -/
theorem exclusion_overrides_inclusion (line : List Char) (li : Nat)
    (h : excludeAny line = true) : isTheatreLine line li = (false, li) := by
  have hneg : negativesOk line = false := by
    simp [negativesOk, h]
  have hc : (inclGroup1 line && negativesOk line) = false := by
    rw [hneg, Bool.and_false]
  unfold isTheatreLine
  rw [if_neg ?_]
  rw [hc]
  exact Bool.noConfusion

/-- C8 witness: `"top cinema, hyderabad"` contains inclusion keywords but
matches the `top cinema` exclusion and is rejected. -/
theorem exclusion_overrides_inclusion_witness :
    hasKeyword (sl ("top cinema, hyderabad")) = true ∧
    isTheatreLine (sl ("top cinema, hyderabad")) 0 = (false, 0) :=
  ⟨by decide, exclusion_overrides_inclusion (sl ("top cinema, hyderabad")) 0 (by decide)⟩

/-- C9: when the candidate's key is already stored, the reconciler keeps the
entry at its position with the union of the time sets, and replaces the
stored name exactly when the new name is strictly longer (`>`, not `>=`):
on ties the first-seen name survives. -/
theorem merge_name_strictly_longer (m : TMap) (k name : List Char)
    (sts : List (List Char)) (r : TRec) (h : lookupKey m k = some r) :
    lookupKey (insertTheatre m k name sts) k =
      some ⟨if r.theatre.length < name.length then name else r.theatre,
            dedup (r.showtimes ++ sts)⟩ :=
  lookupKey_insertTheatre_some m k name sts r h

/-- C9 witness: inserting an equal-length name (`"Cinemb"`, six characters,
against stored `"Cinema"`) keeps the first-seen name while unioning the
times. -/
theorem merge_name_strictly_longer_witness :
    lookupKey (insertTheatre tieMap (sl ("k1")) (sl ("Cinemb")) [sl ("2:00 pm")])
      (sl ("k1")) = some ⟨sl ("Cinema"), [sl ("1:00 pm"), sl ("2:00 pm")]⟩ := by
  rw [merge_name_strictly_longer tieMap (sl ("k1")) (sl ("Cinemb")) [sl ("2:00 pm")]
    ⟨sl ("Cinema"), [sl ("1:00 pm")]⟩ (by decide)]
  decide

/-- C10: the insert used by both sub-passes of `extractTheatresAlternative`
leaves the map completely unchanged when the key is already present — the
later candidate's record and times are discarded without any union; on the
two-line collision input the extractor keeps only the first record. -/
theorem alternative_key_collision_keeps_first :
    (∀ (m : TMap) (k name : List Char) (sts : List (List Char)) (r : TRec),
      lookupKey m k = some r → insertIfAbsent m k name sts = m) ∧
    extractTheatresAlternative altCollisionInput =
      [⟨sl ("pvr alpha"), [sl ("1:00 pm")]⟩] := by
  constructor
  · intro m k name sts r h
    refine insertIfAbsent_of_hasKey m k name sts ?_
    unfold hasKey
    rw [h]
    rfl
  · decide

/-- C2: any two first-pass candidates with non-empty extracted times whose
refined names normalize to the same key are reconciled into exactly one
record for that key in the final output of `extractTheatresAndShowtimes`,
and that record's showtimes are (as a set) precisely the union of the
extracted times of every contributor to the key. -/
theorem reconciler_key_merge_union (body : List Char) (li0 : Nat) (c1 c2 : Cand)
    (h1 : c1 ∈ pass1Cands body li0) (h2 : c2 ∈ pass1Cands body li0)
    (ht1 : cTimesL (extractLines body) c1 ≠ [])
    (ht2 : cTimesL (extractLines body) c2 ≠ [])
    (hk : cKeyL (extractLines body) c1 = cKeyL (extractLines body) c2) :
    countKey (extractMapAndState body li0).1 (cKeyL (extractLines body) c1) = 1 ∧
    ∃ r, lookupKey (extractMapAndState body li0).1
          (cKeyL (extractLines body) c1) = some r ∧
      r ∈ (extractTheatresAndShowtimes body li0).1 ∧
      (∀ x, x ∈ r.showtimes ↔
        ∃ c, c ∈ pass1Cands body li0 ∧
          isContrib (extractLines body) (cKeyL (extractLines body) c1) c = true ∧
          x ∈ cTimesL (extractLines body) c) := by
  have hinv2 : Inv2 (extractLines body) (pass1Cands body li0) (pass2Map body li0) := by
    have hinv := pass2_fold_inv (extractLines body) (pass1Cands body li0) [] []
      (Inv2_nil (extractLines body))
    rw [List.nil_append] at hinv
    exact hinv
  obtain ⟨hnd, hhk, hlk⟩ := hinv2
  have hc1 : isContrib (extractLines body) (cKeyL (extractLines body) c1) c1 = true := by
    simp [isContrib, ht1]
  have hask : hasKey (pass2Map body li0) (cKeyL (extractLines body) c1) = true := by
    rw [hhk (cKeyL (extractLines body) c1)]
    exact List.any_eq_true.mpr ⟨c1, h1, hc1⟩
  obtain ⟨r, hr⟩ : ∃ r, lookupKey (pass2Map body li0)
      (cKeyL (extractLines body) c1) = some r := by
    unfold hasKey at hask
    cases hl : lookupKey (pass2Map body li0) (cKeyL (extractLines body) c1) with
    | none => rw [hl] at hask; exact Bool.noConfusion hask
    | some rr => exact ⟨rr, rfl⟩
  have hpres : lookupKey (extractMapAndState body li0).1
      (cKeyL (extractLines body) c1) = some r := by
    have hp := pass3_fold_preserve
      ((pass1Cands body li0).map (fun c => c.index))
      (cKeyL (extractLines body) c1)
      (enumL (extractLines body))
      (pass2Map body li0, postPass2State body li0)
      (show (lookupKey (pass2Map body li0)
        (cKeyL (extractLines body) c1)).isSome = true by rw [hr]; rfl)
    rw [show (extractMapAndState body li0) =
      (enumL (extractLines body)).foldl
        (pass3Step ((pass1Cands body li0).map (fun c => c.index)))
        (pass2Map body li0, postPass2State body li0) from rfl]
    rw [hp]
    exact hr
  have hnd3 : (keysOf (extractMapAndState body li0).1).Nodup := by
    rw [show (extractMapAndState body li0) =
      (enumL (extractLines body)).foldl
        (pass3Step ((pass1Cands body li0).map (fun c => c.index)))
        (pass2Map body li0, postPass2State body li0) from rfl]
    exact pass3_fold_nodup _ _ _ hnd
  refine ⟨?_, r, hpres, ?_, ?_⟩
  · refine countKey_eq_one _ _ hnd3 ?_
    unfold hasKey
    rw [hpres]
    rfl
  · exact lookupKey_mem_values _ _ _ hpres
  · intro x
    exact hlk (cKeyL (extractLines body) c1) r hr x

/-- C2 witness: on the two identical lines of `duplicateVenueInput` the two
candidates share the key of the refined name, and the engine emits exactly
one record for it, whose showtimes are the contributors' union. -/
theorem reconciler_key_merge_union_witness :
    countKey (extractMapAndState duplicateVenueInput 0).1
      (cKeyL (extractLines duplicateVenueInput) duplicateCand0) = 1 ∧
    ∃ r, lookupKey (extractMapAndState duplicateVenueInput 0).1
          (cKeyL (extractLines duplicateVenueInput) duplicateCand0) = some r ∧
      r ∈ (extractTheatresAndShowtimes duplicateVenueInput 0).1 ∧
      (∀ x, x ∈ r.showtimes ↔
        ∃ c, c ∈ pass1Cands duplicateVenueInput 0 ∧
          isContrib (extractLines duplicateVenueInput)
            (cKeyL (extractLines duplicateVenueInput) duplicateCand0) c = true ∧
          x ∈ cTimesL (extractLines duplicateVenueInput) c) :=
  reconciler_key_merge_union duplicateVenueInput 0 duplicateCand0 duplicateCand1
    (by decide) (by decide) (by decide) (by decide) (by decide)

/-- C7: every record returned by `extractTheatresAndShowtimes` (from any
incoming regex state) and every record returned by
`extractTheatresAlternative` carries a non-empty showtimes list — a
candidate line whose time extraction yields nothing never produces a
record. -/
theorem records_have_nonempty_showtimes (body : List Char) (li0 : Nat) (r : TRec)
    (h : r ∈ (extractTheatresAndShowtimes body li0).1 ∨
         r ∈ extractTheatresAlternative body) :
    r.showtimes ≠ [] := by
  rcases h with h | h
  · have hm : NonemptyShowtimes (extractMapAndState body li0).1 := by
      refine foldlInv (fun a => NonemptyShowtimes a.1)
        (pass3Step ((pass1Cands body li0).map (fun c => c.index)))
        (fun a b hb => nonempty_pass3Step _ a b hb)
        (enumL (extractLines body)) (pass2Map body li0, postPass2State body li0) ?_
      exact foldlInv NonemptyShowtimes (pass2Step (extractLines body))
        (fun a b hb => nonempty_pass2Step _ a b hb)
        (pass1Cands body li0) [] NonemptyShowtimes_nil
    rcases List.mem_map.mp h with ⟨e, he, hre⟩
    rw [← hre]
    exact hm e he
  · have hm : NonemptyShowtimes ((enumL (extractLines body)).foldl
        (altPass2Step (extractLines body))
        ((extractLines body).foldl altPass1Step [])) := by
      refine foldlInv NonemptyShowtimes (altPass2Step (extractLines body))
        (fun a b hb => nonempty_altPass2Step _ a b hb)
        (enumL (extractLines body)) _ ?_
      exact foldlInv NonemptyShowtimes altPass1Step
        (fun a b hb => nonempty_altPass1Step a b hb)
        (extractLines body) [] NonemptyShowtimes_nil
    rcases List.mem_map.mp h with ⟨e, he, hre⟩
    rw [← hre]
    exact hm e he

/-- C7 witness: the single record produced on `singleVenueInput` has a
non-empty showtimes list. -/
theorem records_have_nonempty_showtimes_witness :
    (⟨sl ("a cinema: 1:00 pm"), [sl ("1:00 pm")]⟩ : TRec).showtimes ≠ [] :=
  records_have_nonempty_showtimes singleVenueInput 0
    ⟨sl ("a cinema: 1:00 pm"), [sl ("1:00 pm")]⟩ (Or.inl (by decide))

/-- C10 witness: a colliding insert of fresh times into a one-entry map is
the identity. -/
theorem alternative_key_collision_keeps_first_witness :
    insertIfAbsent [(sl ("pvr alpha"), ⟨sl ("pvr alpha"), [sl ("1:00 pm")]⟩)]
      (sl ("pvr alpha")) (sl ("pvr alpha")) [sl ("2:00 pm")] =
      [(sl ("pvr alpha"), ⟨sl ("pvr alpha"), [sl ("1:00 pm")]⟩)] :=
  alternative_key_collision_keeps_first.1 _ _ _ _
    ⟨sl ("pvr alpha"), [sl ("1:00 pm")]⟩ (by decide)

end SmartScraper
